import Mathlib

/-!
Formal embedding of the core of the 360Extractor repository
(`src/core/processor.py`, `src/core/geometry.py`, `src/core/telemetry.py`,
`src/utils/camm_parser.py`) together with theorems settling the frozen
claims about its specification.

Machine floating-point numbers are embedded as exact rationals (`ℚ`)
except in the geometry, where the Python code computes with transcendental
functions and the embedding uses `ℝ`.  Float literals of the source
(`0.6`, `0.0001`, `0.2`) are embedded as the rationals they denote in the
source text; no claim in scope depends on the rounding of these literals
to binary64.
-/

namespace Extractor360

/-! ### Adaptive blur gate (`processor.py`, lines 151-153 and 245-280)

Per-job state: `blur_history = deque(maxlen=10)` and
`consecutive_blur_skips = 0`.  `smartBlurStep` is one execution of the
smart-blur branch of the view loop (steps 1-4 in the source comments):
it returns `(is_blurry, new state)`; `is_blurry = true` means the view
is rejected (skipped). -/

/-- State of the smart/adaptive blur filter: bounded history of accepted
sharpness scores (oldest first) and the consecutive-skip counter. -/
structure BlurState where
  history : List ℚ
  consecutive_blur_skips : ℕ
  deriving Repr, DecidableEq

/-- `deque(maxlen=10).append`: push at the right, evicting the oldest
element when the deque is full. -/
def dequeAppend10 (h : List ℚ) (x : ℚ) : List ℚ :=
  if h.length < 10 then h ++ [x] else h.tail ++ [x]

/-- `sum(blur_history) / len(blur_history)` (only used on non-empty history). -/
def blurHistoryMean (h : List ℚ) : ℚ :=
  h.sum / h.length

/-- One smart-blur decision (`processor.py` lines 249-271):
floor check, adaptive check against `0.6 × mean(history)`, safety
override after too many consecutive skips, and history update. -/
def smartBlurStep (blur_threshold : ℚ) (st : BlurState) (score : ℚ) :
    Bool × BlurState :=
  -- 1. minimum floor / 2. adaptive check
  let isBlurry : Bool :=
    if score < blur_threshold then true
    else if 0 < st.history.length then
      decide (score < blurHistoryMean st.history * (3 / 5))
    else false
  if isBlurry then
    -- 3. safety override: force accept if too many consecutive skips
    let skips := st.consecutive_blur_skips + 1
    if 5 < skips then
      -- forced accept: counter reset, score pushed into the history
      (false, ⟨dequeAppend10 st.history score, 0⟩)
    else
      (true, ⟨st.history, skips⟩)
  else
    -- 4. natural accept: counter reset, score pushed into the history
    (false, ⟨dequeAppend10 st.history score, 0⟩)

/-- Run the smart-blur gate over a sequence of sharpness scores,
returning the per-candidate rejection decisions and the final state. -/
def smartBlurRun (blur_threshold : ℚ) (st : BlurState) :
    List ℚ → List Bool × BlurState
  | [] => ([], st)
  | s :: rest =>
    let r := smartBlurStep blur_threshold st s
    let rr := smartBlurRun blur_threshold r.2 rest
    (r.1 :: rr.1, rr.2)

/-- The fresh per-job blur state (`blur_history = deque(maxlen=10)`,
`consecutive_blur_skips = 0`). -/
def freshBlurState : BlurState := ⟨[], 0⟩

/-- C1 (counterexample): with floor threshold `100` and seven candidates of
score `0` — every one of which is below the floor — the decision sequence
is reject ×5, force-accept, reject: the *6th* consecutive rejection
candidate is force-accepted, and the 7th is rejected again (its score is
below the floor and the history now holds the forced score).  This refutes
the claim that the 7th consecutive rejection candidate is force-accepted. -/
theorem c1_counterexample :
    (smartBlurRun 100 freshBlurState
        [0, 0, 0, 0, 0, 0, 0]).1 =
      [true, true, true, true, true, false, true] := by
  decide

/-- C1 (amended): in smart/adaptive blur mode, starting from a fresh blur
state, for every score sequence in which each candidate would be rejected
(each score is below the floor threshold; the history stays empty until the
override fires, so the adaptive clause cannot apply), the **6th**
consecutive rejection candidate is force-accepted, the consecutive-reject
counter is reset to 0, and the forced score is pushed into the bounded
(size ≤ 10) history. -/
theorem c1_sixth_rejection_forced
    (thr a b c d e f : ℚ)
    (ha : a < thr) (hb : b < thr) (hc : c < thr)
    (hd : d < thr) (he : e < thr) (hf : f < thr) :
    smartBlurRun thr freshBlurState [a, b, c, d, e, f] =
      ([true, true, true, true, true, false],
        ⟨[f], 0⟩) ∧
    ([f] : List ℚ).length ≤ 10 := by
  refine ⟨?_, by simp⟩
  simp only [smartBlurRun, smartBlurStep, freshBlurState, dequeAppend10]
  norm_num [ha, hb, hc, hd, he, hf]

/-- Witness for `c1_sixth_rejection_forced` at threshold `100` and six zero
scores. -/
theorem c1_sixth_rejection_forced_witness :
    smartBlurRun 100 freshBlurState [0, 0, 0, 0, 0, 0] =
      ([true, true, true, true, true, false], ⟨[0], 0⟩) ∧
    ([ (0 : ℚ) ] : List ℚ).length ≤ 10 :=
  c1_sixth_rejection_forced 100 0 0 0 0 0 0
    (by norm_num) (by norm_num) (by norm_num)
    (by norm_num) (by norm_num) (by norm_num)

/-! ### Frame-consideration interval (`processor.py`, lines 121-128)

`interval = int(max(1, interval_value))` for the `Frames` unit and
`interval = int(max(1, fps * interval_value))` for seconds.  Python's
`int(...)` truncates toward zero; the argument is ≥ 1 here, so it is the
floor. -/

/-- The per-job frame-consideration interval, in frames. -/
def computeInterval (fps interval_value : ℚ) (interval_unit : String) : ℤ :=
  if interval_unit = "Frames" then ⌊max 1 interval_value⌋
  else ⌊max 1 (fps * interval_value)⌋

/-- Floor commutes with clamping at 1. -/
theorem floor_max_one (x : ℚ) : ⌊max 1 x⌋ = max 1 ⌊x⌋ := by
  rcases le_total 1 x with h | h
  · rw [max_eq_right h, max_eq_right]
    exact_mod_cast Int.le_floor.2 (by exact_mod_cast h)
  · rw [max_eq_left h, max_eq_left]
    · norm_num
    · have : (⌊x⌋ : ℚ) ≤ 1 := le_trans (Int.floor_le x) h
      exact_mod_cast le_trans (Int.floor_le x) h

/-- C3 (counterexample): at `fps = 30` and `interval_value = 1/20` seconds
the code computes `int(max(1, 1.5)) = 1`, whereas rounding `fps·value`
would give `max(1, round(1.5)) = 2`.  This refutes the claim that the
seconds-unit interval equals `max(1, round(fps·value))`. -/
theorem c3_counterexample :
    computeInterval 30 (1 / 20) "Seconds" = 1 ∧
      max 1 (round ((30 : ℚ) * (1 / 20))) = 2 := by
  constructor
  · norm_num [computeInterval]
  · norm_num [round_eq]

/-- C3 (amended): for every positive `fps` and every interval value, the
frame-consideration interval equals `max(1, ⌊value⌋)` frames when the unit
is frames and `max(1, ⌊fps·value⌋)` frames when the unit is seconds — the
product is truncated (floored), not rounded. -/
theorem c3_interval_floor (fps interval_value : ℚ) (hfps : 0 < fps) :
    computeInterval fps interval_value "Frames" = max 1 ⌊interval_value⌋ ∧
    computeInterval fps interval_value "Seconds" =
      max 1 ⌊fps * interval_value⌋ := by
  constructor
  · rw [computeInterval, if_pos rfl, floor_max_one]
  · rw [computeInterval, if_neg (by decide), floor_max_one]

/-- Witness for `c3_interval_floor` at `fps = 30`, `value = 1/20`. -/
theorem c3_interval_floor_witness :
    computeInterval 30 (1 / 20) "Frames" = max 1 ⌊(1 / 20 : ℚ)⌋ ∧
    computeInterval 30 (1 / 20) "Seconds" =
      max 1 ⌊(30 : ℚ) * (1 / 20)⌋ :=
  c3_interval_floor 30 (1 / 20) (by norm_num)

/-! ### Motion gate on a considered source frame (`processor.py`, lines 225-280)

The per-considered-frame step of the extraction loop: the adaptive/motion
check first (lines 226-234), then the per-view loop, whose only effect on
the per-job filtering state is through the blur gate.  Frames and the
motion/sharpness scoring are abstract: `motionScore` stands for
`MotionDetector.calculate_motion_score` and `viewScores` for the sequence
of `ImageUtils.calculate_blur_score` values of the frame's reprojected
active views, neither of which the claims constrain. -/

/-- The per-view phase of one considered frame, restricted to its effect on
the blur state: in smart mode every view score passes through
`smartBlurStep`; in standard mode (and with the filter disabled) the state
is untouched. -/
def viewLoopBlur (blur_enabled smart_blur_enabled : Bool) (blur_threshold : ℚ)
    (st : BlurState) (scores : List ℚ) : BlurState :=
  scores.foldl
    (fun s sc =>
      if blur_enabled && smart_blur_enabled then (smartBlurStep blur_threshold s sc).2
      else s)
    st

/-- One considered source frame of the extraction loop, restricted to the
per-job filtering state `(last_extracted_frame, blur state)`. -/
def processConsideredFrame {F : Type} (motionScore : F → F → ℚ)
    (viewScores : F → List ℚ)
    (adaptive_mode : Bool) (adaptive_threshold : ℚ)
    (blur_enabled smart_blur_enabled : Bool) (blur_threshold : ℚ)
    (last_extracted_frame : Option F) (blur : BlurState) (frame : F) :
    Option F × BlurState :=
  if adaptive_mode then
    match last_extracted_frame with
    | some prev =>
      if motionScore prev frame ≤ adaptive_threshold then
        -- skip extraction: `continue` before the view loop
        (last_extracted_frame, blur)
      else
        (some frame,
          viewLoopBlur blur_enabled smart_blur_enabled blur_threshold blur
            (viewScores frame))
    | none =>
      (some frame,
        viewLoopBlur blur_enabled smart_blur_enabled blur_threshold blur
          (viewScores frame))
  else
    (last_extracted_frame,
      viewLoopBlur blur_enabled smart_blur_enabled blur_threshold blur
        (viewScores frame))

/-- C8: with the motion gate enabled, a considered frame whose motion score
against the existing reference is ≤ the threshold is skipped entirely
(blur state and reference unchanged); a frame scoring above the threshold
becomes the new reference; and the first considered frame (no reference
yet) is always stored as the reference. -/
theorem c8_motion_gate {F : Type} (motionScore : F → F → ℚ)
    (viewScores : F → List ℚ) (adaptive_threshold : ℚ)
    (blur_enabled smart_blur_enabled : Bool) (blur_threshold : ℚ)
    (prev frame : F) (blur : BlurState) :
    (motionScore prev frame ≤ adaptive_threshold →
      processConsideredFrame motionScore viewScores true adaptive_threshold
          blur_enabled smart_blur_enabled blur_threshold (some prev) blur frame =
        (some prev, blur)) ∧
    (adaptive_threshold < motionScore prev frame →
      (processConsideredFrame motionScore viewScores true adaptive_threshold
          blur_enabled smart_blur_enabled blur_threshold (some prev) blur
          frame).1 = some frame) ∧
    (processConsideredFrame motionScore viewScores true adaptive_threshold
        blur_enabled smart_blur_enabled blur_threshold none blur frame).1 =
      some frame := by
  refine ⟨fun h => ?_, fun h => ?_, ?_⟩
  · simp [processConsideredFrame, h]
  · simp [processConsideredFrame, not_le.2 h]
  · simp [processConsideredFrame]

/-- Witness for `c8_motion_gate`: frames as naturals, the motion score as
their distance, view scores empty. -/
theorem c8_motion_gate_witness :
    processConsideredFrame (fun a b : ℕ => (b - a : ℚ)) (fun _ => []) true 10
        true true 100 (some 3) freshBlurState 5 =
      (some 3, freshBlurState) :=
  (c8_motion_gate (fun a b : ℕ => (b - a : ℚ)) (fun _ => []) 10
      true true 100 3 5 freshBlurState).1 (by norm_num)

/-! ### Telemetry track and GPS interpolation (`telemetry.py`, lines 16-20 and 202-236)

`TelemetryHandler.get_gps_at_time` does a `bisect.bisect_left` over the
sample timestamps, clamps to the first/last sample outside the covered
range, and linearly interpolates lat/lon/alt between the bracketing
samples otherwise. -/

/-- One normalized GPS sample. -/
structure GpsSample where
  timestamp : ℚ
  lat : ℚ
  lon : ℚ
  alt : ℚ
  deriving Repr, DecidableEq, Inhabited

/-- The fields of `TelemetryHandler` that `get_gps_at_time` reads. -/
structure TelemetryState where
  has_gps : Bool
  gps_samples : List GpsSample
  deriving Repr, DecidableEq

/-- Python `bisect.bisect_left(a, x, lo, hi)`: binary search for the
leftmost insertion point of `x`. -/
def bisectLeftAux (times : List ℚ) (t : ℚ) (lo hi : ℕ) : ℕ :=
  if h : lo < hi then
    if times.getD ((lo + hi) / 2) 0 < t then
      bisectLeftAux times t ((lo + hi) / 2 + 1) hi
    else bisectLeftAux times t lo ((lo + hi) / 2)
  else lo
termination_by hi - lo
decreasing_by
  · omega
  · omega

/-- `bisect.bisect_left(times, t)` with the default search bounds. -/
def bisect_left (times : List ℚ) (t : ℚ) : ℕ :=
  bisectLeftAux times t 0 times.length

/-- A non-decreasing list is monotone in its (defaulted) indexing. -/
theorem getD_mono_of_pairwise {times : List ℚ}
    (hsort : times.Pairwise (· ≤ ·)) {i j : ℕ} (hij : i ≤ j)
    (hj : j < times.length) : times.getD i 0 ≤ times.getD j 0 := by
  rcases eq_or_lt_of_le hij with rfl | hlt
  · exact le_refl _
  · have hi : i < times.length := lt_trans hlt hj
    have := List.pairwise_iff_getElem.mp hsort i j hi hj hlt
    rwa [List.getD_eq_getElem times 0 hi, List.getD_eq_getElem times 0 hj]

/-- Characterization of the binary search on a sorted list: every index
below the result holds a time `< t`, every index at or above it (within
bounds) holds a time `≥ t`, and the result stays within the search
bounds. -/
theorem bisectLeftAux_spec (times : List ℚ) (t : ℚ)
    (hsort : times.Pairwise (· ≤ ·)) :
    ∀ fuel lo hi, hi - lo ≤ fuel → lo ≤ hi → hi ≤ times.length →
      (∀ j, j < lo → times.getD j 0 < t) →
      (∀ j, hi ≤ j → j < times.length → t ≤ times.getD j 0) →
      ((∀ j, j < bisectLeftAux times t lo hi → times.getD j 0 < t) ∧
        (∀ j, bisectLeftAux times t lo hi ≤ j → j < times.length →
          t ≤ times.getD j 0) ∧
        lo ≤ bisectLeftAux times t lo hi ∧ bisectLeftAux times t lo hi ≤ hi) := by
  intro fuel
  induction fuel with
  | zero =>
    intro lo hi hfuel hlohi hhi hlow hhigh
    have hlh : ¬ lo < hi := by omega
    have heq : bisectLeftAux times t lo hi = lo := by
      rw [bisectLeftAux, dif_neg hlh]
    rw [heq]
    have : lo = hi := by omega
    exact ⟨hlow, fun j hj => hhigh j (this ▸ hj), le_refl lo, by omega⟩
  | succ n ih =>
    intro lo hi hfuel hlohi hhi hlow hhigh
    by_cases h : lo < hi
    · have hmidlt : (lo + hi) / 2 < hi := by omega
      have hmidge : lo ≤ (lo + hi) / 2 := by omega
      by_cases hmid : times.getD ((lo + hi) / 2) 0 < t
      · have heq : bisectLeftAux times t lo hi =
            bisectLeftAux times t ((lo + hi) / 2 + 1) hi := by
          rw [bisectLeftAux, dif_pos h, if_pos hmid]
        rw [heq]
        have hlow2 : ∀ j, j < (lo + hi) / 2 + 1 → times.getD j 0 < t := by
          intro j hj
          rcases lt_or_ge j lo with hjlo | hjlo
          · exact hlow j hjlo
          · exact lt_of_le_of_lt
              (getD_mono_of_pairwise hsort (by omega) (lt_of_lt_of_le hmidlt hhi))
              hmid
        obtain ⟨ha, hb, hc, hd⟩ :=
          ih ((lo + hi) / 2 + 1) hi (by omega) (by omega) hhi hlow2 hhigh
        exact ⟨ha, hb, by omega, hd⟩
      · have heq : bisectLeftAux times t lo hi =
            bisectLeftAux times t lo ((lo + hi) / 2) := by
          rw [bisectLeftAux, dif_pos h, if_neg hmid]
        rw [heq]
        have hhigh2 : ∀ j, (lo + hi) / 2 ≤ j → j < times.length →
            t ≤ times.getD j 0 := by
          intro j hj hjlen
          exact le_trans (not_lt.mp hmid) (getD_mono_of_pairwise hsort hj hjlen)
        obtain ⟨ha, hb, hc, hd⟩ :=
          ih lo ((lo + hi) / 2) (by omega) (by omega)
            (le_trans (le_of_lt hmidlt) hhi) hlow hhigh2
        exact ⟨ha, hb, hc, by omega⟩
    · have heq : bisectLeftAux times t lo hi = lo := by
        rw [bisectLeftAux, dif_neg h]
      rw [heq]
      have : lo = hi := by omega
      exact ⟨hlow, fun j hj => hhigh j (this ▸ hj), le_refl lo, by omega⟩

/-- `bisect_left` on a sorted list: indices below the result are `< t`,
indices at or above it are `≥ t`, and the result is at most the length. -/
theorem bisect_left_spec (times : List ℚ) (t : ℚ)
    (hsort : times.Pairwise (· ≤ ·)) :
    (∀ j, j < bisect_left times t → times.getD j 0 < t) ∧
    (∀ j, bisect_left times t ≤ j → j < times.length →
      t ≤ times.getD j 0) ∧
    bisect_left times t ≤ times.length := by
  have h := bisectLeftAux_spec times t hsort times.length 0 times.length
    (by omega) (Nat.zero_le _) (le_refl _)
    (fun j hj => absurd hj (Nat.not_lt_zero j))
    (fun j hj hjlen => absurd (lt_of_le_of_lt hj hjlen) (lt_irrefl _))
  exact ⟨h.1, h.2.1, h.2.2.2⟩

/-- `TelemetryHandler.get_gps_at_time` (`telemetry.py`, lines 202-236):
`None` without GPS or samples; clamp below the first and above the last
timestamp; linear interpolation of lat/lon/alt between the bracketing
samples otherwise.  Python negative indexing `samples[-1]` is embedded as
indexing at `length - 1`. -/
def get_gps_at_time (st : TelemetryState) (timestamp : ℚ) :
    Option (ℚ × ℚ × ℚ) :=
  if st.has_gps = false ∨ st.gps_samples = [] then none
  else
    let times := st.gps_samples.map GpsSample.timestamp
    let idx := bisect_left times timestamp
    if idx = 0 then
      let s := st.gps_samples.getD 0 default
      some (s.lat, s.lon, s.alt)
    else if st.gps_samples.length ≤ idx then
      let s := st.gps_samples.getD (st.gps_samples.length - 1) default
      some (s.lat, s.lon, s.alt)
    else
      let t1 := times.getD (idx - 1) 0
      let t2 := times.getD idx 0
      if t2 = t1 then
        let s := st.gps_samples.getD idx default
        some (s.lat, s.lon, s.alt)
      else
        let ratio := (timestamp - t1) / (t2 - t1)
        let p1 := st.gps_samples.getD (idx - 1) default
        let p2 := st.gps_samples.getD idx default
        some (p1.lat + (p2.lat - p1.lat) * ratio,
          p1.lon + (p2.lon - p1.lon) * ratio,
          p1.alt + (p2.alt - p1.alt) * ratio)

/-- On a sorted, non-empty list, a query at or before the first element
has insertion point 0. -/
theorem bisect_left_eq_zero {times : List ℚ} {t : ℚ}
    (hsort : times.Pairwise (· ≤ ·)) (h0 : 0 < times.length)
    (ht : t ≤ times.getD 0 0) : bisect_left times t = 0 := by
  by_contra h
  have := (bisect_left_spec times t hsort).1 0 (Nat.pos_of_ne_zero h)
  linarith

/-- On a sorted, non-empty list, a query strictly after the last element
has insertion point `length`. -/
theorem bisect_left_eq_length {times : List ℚ} {t : ℚ}
    (hsort : times.Pairwise (· ≤ ·)) (h0 : 0 < times.length)
    (ht : times.getD (times.length - 1) 0 < t) :
    bisect_left times t = times.length := by
  obtain ⟨h1, h2, h3⟩ := bisect_left_spec times t hsort
  rcases lt_or_ge (bisect_left times t) times.length with hlt | hge
  · have ha := h2 _ (le_refl _) hlt
    have hb : times.getD (bisect_left times t) 0 ≤
        times.getD (times.length - 1) 0 :=
      getD_mono_of_pairwise hsort (by omega) (by omega)
    linarith
  · omega

/-- On a sorted list, a query strictly bracketed as
`times[k] < t ≤ times[k+1]` has insertion point `k + 1`. -/
theorem bisect_left_interior {times : List ℚ} {t : ℚ}
    (hsort : times.Pairwise (· ≤ ·)) {k : ℕ} (hk1 : k + 1 < times.length)
    (hlo : times.getD k 0 < t) (hhi : t ≤ times.getD (k + 1) 0) :
    bisect_left times t = k + 1 := by
  obtain ⟨h1, h2, h3⟩ := bisect_left_spec times t hsort
  by_contra h
  rcases lt_or_gt_of_ne h with hlt | hgt
  · have := h2 k (by omega) (by omega)
    linarith
  · have := h1 (k + 1) (by omega)
    linarith

/-- Indexing the timestamp projection agrees with projecting the indexed
sample, inside bounds. -/
theorem getD_map_timestamp (l : List GpsSample) (i : ℕ) (h : i < l.length) :
    (l.map GpsSample.timestamp).getD i 0 = (l.getD i default).timestamp := by
  rw [List.getD_eq_getElem _ 0 (by simpa using h),
    List.getD_eq_getElem _ default h]
  exact List.getElem_map _

/-- C4: for a non-empty sample list sorted non-decreasing by timestamp
(and the GPS flag set), `get_gps_at_time` returns exactly the first sample
at or before the first timestamp, exactly the last sample after the last
timestamp, the independent linear interpolation of lat/lon/alt between the
bracketing samples otherwise, and the arithmetic mean of two adjacent
samples with distinct timestamps at their midway time. -/
theorem c4_gps_at_time (st : TelemetryState)
    (hgps : st.has_gps = true) (hne : st.gps_samples ≠ [])
    (hsort : (st.gps_samples.map GpsSample.timestamp).Pairwise (· ≤ ·)) :
    (∀ t : ℚ, t ≤ (st.gps_samples.getD 0 default).timestamp →
      get_gps_at_time st t =
        some ((st.gps_samples.getD 0 default).lat,
          (st.gps_samples.getD 0 default).lon,
          (st.gps_samples.getD 0 default).alt)) ∧
    (∀ t : ℚ,
      (st.gps_samples.getD (st.gps_samples.length - 1) default).timestamp < t →
      get_gps_at_time st t =
        some ((st.gps_samples.getD (st.gps_samples.length - 1) default).lat,
          (st.gps_samples.getD (st.gps_samples.length - 1) default).lon,
          (st.gps_samples.getD (st.gps_samples.length - 1) default).alt)) ∧
    (∀ (t : ℚ) (k : ℕ), k + 1 < st.gps_samples.length →
      (st.gps_samples.getD k default).timestamp < t →
      t ≤ (st.gps_samples.getD (k + 1) default).timestamp →
      get_gps_at_time st t =
        some
          ((st.gps_samples.getD k default).lat +
              ((st.gps_samples.getD (k + 1) default).lat -
                (st.gps_samples.getD k default).lat) *
              ((t - (st.gps_samples.getD k default).timestamp) /
                ((st.gps_samples.getD (k + 1) default).timestamp -
                  (st.gps_samples.getD k default).timestamp)),
            (st.gps_samples.getD k default).lon +
              ((st.gps_samples.getD (k + 1) default).lon -
                (st.gps_samples.getD k default).lon) *
              ((t - (st.gps_samples.getD k default).timestamp) /
                ((st.gps_samples.getD (k + 1) default).timestamp -
                  (st.gps_samples.getD k default).timestamp)),
            (st.gps_samples.getD k default).alt +
              ((st.gps_samples.getD (k + 1) default).alt -
                (st.gps_samples.getD k default).alt) *
              ((t - (st.gps_samples.getD k default).timestamp) /
                ((st.gps_samples.getD (k + 1) default).timestamp -
                  (st.gps_samples.getD k default).timestamp)))) ∧
    (∀ k : ℕ, k + 1 < st.gps_samples.length →
      (st.gps_samples.getD k default).timestamp <
        (st.gps_samples.getD (k + 1) default).timestamp →
      get_gps_at_time st
          (((st.gps_samples.getD k default).timestamp +
            (st.gps_samples.getD (k + 1) default).timestamp) / 2) =
        some
          (((st.gps_samples.getD k default).lat +
              (st.gps_samples.getD (k + 1) default).lat) / 2,
            ((st.gps_samples.getD k default).lon +
              (st.gps_samples.getD (k + 1) default).lon) / 2,
            ((st.gps_samples.getD k default).alt +
              (st.gps_samples.getD (k + 1) default).alt) / 2)) := by
  have hlen0 : 0 < st.gps_samples.length := List.length_pos.mpr hne
  have hmaplen : (st.gps_samples.map GpsSample.timestamp).length =
      st.gps_samples.length := List.length_map _ _
  have hfirst : ∀ t : ℚ, t ≤ (st.gps_samples.getD 0 default).timestamp →
      get_gps_at_time st t =
        some ((st.gps_samples.getD 0 default).lat,
          (st.gps_samples.getD 0 default).lon,
          (st.gps_samples.getD 0 default).alt) := by
    intro t ht
    have hidx : bisect_left (st.gps_samples.map GpsSample.timestamp) t = 0 :=
      bisect_left_eq_zero hsort (by omega)
        (by rw [getD_map_timestamp _ _ hlen0]; exact ht)
    simp [get_gps_at_time, hgps, hne, hidx]
  have hlast : ∀ t : ℚ,
      (st.gps_samples.getD (st.gps_samples.length - 1) default).timestamp < t →
      get_gps_at_time st t =
        some ((st.gps_samples.getD (st.gps_samples.length - 1) default).lat,
          (st.gps_samples.getD (st.gps_samples.length - 1) default).lon,
          (st.gps_samples.getD (st.gps_samples.length - 1) default).alt) := by
    intro t ht
    have hidx : bisect_left (st.gps_samples.map GpsSample.timestamp) t =
        st.gps_samples.length := by
      rw [← hmaplen]
      exact bisect_left_eq_length hsort (by omega)
        (by rw [hmaplen, getD_map_timestamp _ _ (by omega)]; exact ht)
    simp [get_gps_at_time, hgps, hne, hidx, Nat.pos_iff_ne_zero.mp hlen0]
  have hmid : ∀ (t : ℚ) (k : ℕ), k + 1 < st.gps_samples.length →
      (st.gps_samples.getD k default).timestamp < t →
      t ≤ (st.gps_samples.getD (k + 1) default).timestamp →
      get_gps_at_time st t =
        some
          ((st.gps_samples.getD k default).lat +
              ((st.gps_samples.getD (k + 1) default).lat -
                (st.gps_samples.getD k default).lat) *
              ((t - (st.gps_samples.getD k default).timestamp) /
                ((st.gps_samples.getD (k + 1) default).timestamp -
                  (st.gps_samples.getD k default).timestamp)),
            (st.gps_samples.getD k default).lon +
              ((st.gps_samples.getD (k + 1) default).lon -
                (st.gps_samples.getD k default).lon) *
              ((t - (st.gps_samples.getD k default).timestamp) /
                ((st.gps_samples.getD (k + 1) default).timestamp -
                  (st.gps_samples.getD k default).timestamp)),
            (st.gps_samples.getD k default).alt +
              ((st.gps_samples.getD (k + 1) default).alt -
                (st.gps_samples.getD k default).alt) *
              ((t - (st.gps_samples.getD k default).timestamp) /
                ((st.gps_samples.getD (k + 1) default).timestamp -
                  (st.gps_samples.getD k default).timestamp))) := by
    intro t k hk1 ht1 ht2
    have hidx : bisect_left (st.gps_samples.map GpsSample.timestamp) t =
        k + 1 :=
      bisect_left_interior hsort (by omega)
        (by rw [getD_map_timestamp _ _ (by omega)]; exact ht1)
        (by rw [getD_map_timestamp _ _ (by omega)]; exact ht2)
    have hne2 : (st.gps_samples.map GpsSample.timestamp).getD (k + 1) 0 ≠
        (st.gps_samples.map GpsSample.timestamp).getD k 0 := by
      rw [getD_map_timestamp _ _ (by omega), getD_map_timestamp _ _ (by omega)]
      intro hcontra
      rw [hcontra] at ht2
      linarith
    simp only [get_gps_at_time, hgps, hne, hidx]
    rw [if_neg (by simp [hne])]
    rw [if_neg (by omega), if_neg (by omega)]
    simp only [Nat.add_sub_cancel]
    rw [if_neg hne2]
    rw [getD_map_timestamp _ _ (by omega), getD_map_timestamp _ _ (by omega)]
  refine ⟨hfirst, hlast, hmid, ?_⟩
  intro k hk1 hlt
  have h0 := hmid (((st.gps_samples.getD k default).timestamp +
      (st.gps_samples.getD (k + 1) default).timestamp) / 2) k hk1
    (by linarith) (by linarith)
  rw [h0]
  set p := st.gps_samples.getD k default
  set q := st.gps_samples.getD (k + 1) default
  have hden : q.timestamp - p.timestamp ≠ 0 := by
    intro hc
    have : q.timestamp = p.timestamp := by linarith
    simp only [this] at hlt
    exact lt_irrefl _ hlt
  have hratio : ((p.timestamp + q.timestamp) / 2 - p.timestamp) /
      (q.timestamp - p.timestamp) = 1 / 2 := by
    rw [div_eq_div_iff hden (by norm_num)]
    ring
  rw [hratio]
  congr 1
  refine Prod.ext ?_ (Prod.ext ?_ ?_) <;> · simp only; ring

/-- Witness for `c4_gps_at_time`: a two-sample track, queried midway,
yields the arithmetic mean of the two samples. -/
theorem c4_gps_at_time_witness :
    get_gps_at_time ⟨true, [⟨0, 10, 20, 30⟩, ⟨2, 14, 24, 34⟩]⟩ 1 =
      some (12, 22, 32) := by
  have h := (c4_gps_at_time ⟨true, [⟨0, 10, 20, 30⟩, ⟨2, 14, 24, 34⟩]⟩
      rfl (by simp) (by decide)).2.2.2 0 (by norm_num) (by norm_num)
  norm_num at h
  exact h

/-- C10: `get_gps_at_time` returns `None` exactly when no GPS was flagged
or the sample list is empty; whenever it returns a position, GPS was
flagged present and at least one sample is loaded. -/
theorem c10_gps_none_iff (st : TelemetryState) (t : ℚ) :
    get_gps_at_time st t = none ↔
      st.has_gps = false ∨ st.gps_samples = [] := by
  simp only [get_gps_at_time]
  split_ifs with h1 h2 h3 h4 <;> simp [h1]

/-! ### Camera layout generation (`geometry.py`, lines 10-81)

`GeometryProcessor.generate_views` produces `(name, yaw, pitch, roll)`
tuples.  The branch structure of the source: ring when `layout_mode ==
'ring'` or (`'adaptive'` and `n < 6`); cube when `n == 6`; the Fibonacci
golden-section spiral otherwise.  Angles are embedded in `ℝ`; the
transcendental values of the Fibonacci branch are carried exactly. -/

/-- `np.radians`. -/
noncomputable def radians (deg : ℝ) : ℝ := deg * Real.pi / 180

/-- `np.degrees`. -/
noncomputable def degrees (rad : ℝ) : ℝ := rad * 180 / Real.pi

/-- `np.arctan2 y x` (four-quadrant arctangent). -/
noncomputable def arctan2 (y x : ℝ) : ℝ :=
  if 0 < x then Real.arctan (y / x)
  else if x < 0 then
    (if 0 ≤ y then Real.arctan (y / x) + Real.pi
      else Real.arctan (y / x) - Real.pi)
  else if 0 < y then Real.pi / 2
  else if y < 0 then -(Real.pi / 2)
  else 0

/-- One view of the Fibonacci golden-section spiral branch
(`geometry.py`, lines 50-79): point on the unit sphere, converted to
yaw/pitch with the yaw normalized into `[0, 360)` by the Python float
modulo. -/
noncomputable def fibView (n i : ℕ) (pitch_offset : ℝ) : String × ℝ × ℝ × ℝ :=
  let dst : ℝ := 2 / (n : ℝ)
  let y : ℝ := 1 - (i : ℝ) * dst - dst / 2
  let r : ℝ := Real.sqrt (1 - y * y)
  let phi : ℝ := (i : ℝ) * (Real.pi * (3 - Real.sqrt 5))
  let x : ℝ := Real.cos phi * r
  let z : ℝ := Real.sin phi * r
  let pitch_deg : ℝ := degrees (Real.arcsin y)
  let yaw_deg : ℝ := degrees (arctan2 x z)
  let yaw : ℝ := yaw_deg - 360 * ⌊yaw_deg / 360⌋
  ("View_" ++ toString i, yaw, pitch_deg + pitch_offset, 0)

/-- `GeometryProcessor.generate_views(n, pitch_offset, layout_mode)`. -/
noncomputable def generate_views (n : ℕ) (pitch_offset : ℝ)
    (layout_mode : String) : List (String × ℝ × ℝ × ℝ) :=
  if layout_mode = "ring" ∨ (layout_mode = "adaptive" ∧ n < 6) then
    (List.range n).map fun (i : ℕ) =>
      ("View_" ++ toString i, ((i : ℝ) * 360) / (n : ℝ), pitch_offset, 0)
  else if n = 6 then
    [("Front", 0, pitch_offset, 0), ("Right", 90, pitch_offset, 0),
      ("Back", 180, pitch_offset, 0), ("Left", 270, pitch_offset, 0),
      ("Up", 0, 90, 0), ("Down", 0, -90, 0)]
  else (List.range n).map fun i => fibView n i pitch_offset

/-- C2 (code evaluated at the failing input): `generate_views` with
`layout_mode = cube` and `n = 12` — the input of the repository's own test
`test_generate_views_cube`, which asserts 6 views including "Front" — in
fact returns 12 Fibonacci-branch views named `View_i`, because the source
only dispatches to the cube branch when `n == 6`. -/
theorem c2_cube_failing_input :
    (generate_views 12 0 "cube").length = 12 ∧
      (generate_views 12 0 "cube").map Prod.fst =
        (List.range 12).map (fun i => "View_" ++ toString i) := by
  constructor
  · simp [generate_views]
  · simp [generate_views, fibView]

/-- C9: for every `n ∈ [2, 36]` and every pitch offset, the ring layout
returns exactly `n` views, the `i`-th being `View_i` at yaw `i·360/n`,
pitch `pitch_offset` and roll 0, in generation order. -/
theorem c9_ring_views (n : ℕ) (po : ℝ) (h2 : 2 ≤ n) (h36 : n ≤ 36) :
    (generate_views n po "ring").length = n ∧
    ∀ i : ℕ, i < n →
      (generate_views n po "ring").getD i ("", 0, 0, 0) =
        ("View_" ++ toString i, ((i : ℝ) * 360) / (n : ℝ), po, 0) := by
  have hlen : (generate_views n po "ring").length = n := by
    simp [generate_views]
  refine ⟨hlen, ?_⟩
  intro i hi
  rw [List.getD_eq_getElem _ _ (by rw [hlen]; exact hi)]
  simp [generate_views]

/-- Witness for `c9_ring_views` at `n = 4`, zero pitch offset, index 1. -/
theorem c9_ring_views_witness :
    (generate_views 4 0 "ring").length = 4 ∧
      (generate_views 4 0 "ring").getD 1 ("", 0, 0, 0) =
        ("View_" ++ toString 1, (90 : ℝ), 0, 0) := by
  obtain ⟨h1, h2⟩ := c9_ring_views 4 0 (by norm_num) (by norm_num)
  refine ⟨h1, ?_⟩
  have h3 := h2 1 (by norm_num)
  norm_num at h3 ⊢
  exact h3

/-! ### Reprojection-map ray geometry (`geometry.py`, lines 83-196)

`get_rotation_matrix` builds `R = Ry(yaw)·Rx(pitch)·Rz(roll)`;
`create_rectilinear_map` rotates each normalized destination ray
`((x−cx)/f, (y−cy)/f, 1)` and converts it to spherical coordinates,
dividing by the ray magnitude `r` inside `asin`. -/

/-- A 3-vector in the camera frame (X right, Y down, Z forward). -/
structure Vec3 where
  x : ℝ
  y : ℝ
  z : ℝ

/-- The `rz` (roll) matrix of `get_rotation_matrix`, applied to a vector. -/
noncomputable def rotZ (roll : ℝ) (v : Vec3) : Vec3 :=
  ⟨Real.cos roll * v.x - Real.sin roll * v.y,
    Real.sin roll * v.x + Real.cos roll * v.y, v.z⟩

/-- The `rx` (pitch) matrix of `get_rotation_matrix`, applied to a vector. -/
noncomputable def rotX (pitch : ℝ) (v : Vec3) : Vec3 :=
  ⟨v.x, Real.cos pitch * v.y - Real.sin pitch * v.z,
    Real.sin pitch * v.y + Real.cos pitch * v.z⟩

/-- The `ry` (yaw) matrix of `get_rotation_matrix`, applied to a vector. -/
noncomputable def rotY (yaw : ℝ) (v : Vec3) : Vec3 :=
  ⟨Real.cos yaw * v.x + Real.sin yaw * v.z, v.y,
    -Real.sin yaw * v.x + Real.cos yaw * v.z⟩

/-- `get_rotation_matrix(yaw, pitch, roll) @ v`: degrees are converted to
radians and `R = ry @ rx @ rz`. -/
noncomputable def rotationApply (yaw_deg pitch_deg roll_deg : ℝ)
    (v : Vec3) : Vec3 :=
  rotY (radians yaw_deg) (rotX (radians pitch_deg) (rotZ (radians roll_deg) v))

/-- `x**2 + y**2 + z**2`, the quantity under the square root of
`r = np.sqrt(x_rot**2 + y_rot**2 + z_rot**2)`. -/
noncomputable def sumSq (v : Vec3) : ℝ := v.x ^ 2 + v.y ^ 2 + v.z ^ 2

/-- The rotated ray of one destination pixel `(px, py)` in
`create_rectilinear_map`: normalized camera coordinates on the `z = 1`
plane, then the rotation. -/
noncomputable def pixelRay (dest_h dest_w : ℕ)
    (fov_deg yaw_deg pitch_deg roll_deg : ℝ) (px py : ℕ) : Vec3 :=
  let f : ℝ := (0.5 * (dest_w : ℝ)) / Real.tan (0.5 * radians fov_deg)
  let cx : ℝ := (dest_w : ℝ) / 2
  let cy : ℝ := (dest_h : ℝ) / 2
  let x_norm : ℝ := ((px : ℝ) - cx) / f
  let y_norm : ℝ := ((py : ℝ) - cy) / f
  rotationApply yaw_deg pitch_deg roll_deg ⟨x_norm, y_norm, 1⟩

/-- The ray magnitude `r` of one destination pixel. -/
noncomputable def rayMag (dest_h dest_w : ℕ)
    (fov_deg yaw_deg pitch_deg roll_deg : ℝ) (px py : ℕ) : ℝ :=
  Real.sqrt (sumSq (pixelRay dest_h dest_w fov_deg yaw_deg pitch_deg roll_deg px py))

/-- The argument `y_rot / r` passed to `np.arcsin` for one destination
pixel. -/
noncomputable def phiRatio (dest_h dest_w : ℕ)
    (fov_deg yaw_deg pitch_deg roll_deg : ℝ) (px py : ℕ) : ℝ :=
  (pixelRay dest_h dest_w fov_deg yaw_deg pitch_deg roll_deg px py).y /
    rayMag dest_h dest_w fov_deg yaw_deg pitch_deg roll_deg px py

/-- The `(map_x, map_y)` entry of one destination pixel of
`create_rectilinear_map`. -/
noncomputable def create_rectilinear_map_pixel (src_h src_w dest_h dest_w : ℕ)
    (fov_deg yaw_deg pitch_deg roll_deg : ℝ) (px py : ℕ) : ℝ × ℝ :=
  let v := pixelRay dest_h dest_w fov_deg yaw_deg pitch_deg roll_deg px py
  let theta := arctan2 v.x v.z
  let phi := Real.arcsin
    (phiRatio dest_h dest_w fov_deg yaw_deg pitch_deg roll_deg px py)
  ((theta / (2 * Real.pi) + 0.5) * (src_w : ℝ),
    (phi / Real.pi + 0.5) * (src_h : ℝ))

/-- `rz` preserves the sum of squares. -/
theorem sumSq_rotZ (roll : ℝ) (v : Vec3) : sumSq (rotZ roll v) = sumSq v := by
  simp only [rotZ, sumSq]
  linear_combination (v.x ^ 2 + v.y ^ 2) * Real.sin_sq_add_cos_sq roll

/-- `rx` preserves the sum of squares. -/
theorem sumSq_rotX (pitch : ℝ) (v : Vec3) : sumSq (rotX pitch v) = sumSq v := by
  simp only [rotX, sumSq]
  linear_combination (v.y ^ 2 + v.z ^ 2) * Real.sin_sq_add_cos_sq pitch

/-- `ry` preserves the sum of squares. -/
theorem sumSq_rotY (yaw : ℝ) (v : Vec3) : sumSq (rotY yaw v) = sumSq v := by
  simp only [rotY, sumSq]
  linear_combination (v.x ^ 2 + v.z ^ 2) * Real.sin_sq_add_cos_sq yaw

/-- The full rotation preserves the sum of squares. -/
theorem sumSq_rotationApply (yaw_deg pitch_deg roll_deg : ℝ) (v : Vec3) :
    sumSq (rotationApply yaw_deg pitch_deg roll_deg v) = sumSq v := by
  rw [rotationApply, sumSq_rotY, sumSq_rotX, sumSq_rotZ]

/-- C6: for every destination pixel of every size/FOV/orientation
combination, the rotated ray magnitude is at least 1 (hence nonzero, so
`y_rot / r` never divides by zero) and the `asin` argument `y_rot / r`
lies in `[-1, 1]`. -/
theorem c6_ray_magnitude (dest_h dest_w : ℕ)
    (fov_deg yaw_deg pitch_deg roll_deg : ℝ) (px py : ℕ) :
    1 ≤ rayMag dest_h dest_w fov_deg yaw_deg pitch_deg roll_deg px py ∧
    rayMag dest_h dest_w fov_deg yaw_deg pitch_deg roll_deg px py ≠ 0 ∧
    -1 ≤ phiRatio dest_h dest_w fov_deg yaw_deg pitch_deg roll_deg px py ∧
    phiRatio dest_h dest_w fov_deg yaw_deg pitch_deg roll_deg px py ≤ 1 := by
  set v := pixelRay dest_h dest_w fov_deg yaw_deg pitch_deg roll_deg px py
    with hv
  have hsum : 1 ≤ sumSq v := by
    rw [hv, pixelRay, sumSq_rotationApply]
    simp only [sumSq]
    nlinarith [sq_nonneg (((px : ℝ) - (dest_w : ℝ) / 2) /
        ((0.5 * (dest_w : ℝ)) / Real.tan (0.5 * radians fov_deg))),
      sq_nonneg (((py : ℝ) - (dest_h : ℝ) / 2) /
        ((0.5 * (dest_w : ℝ)) / Real.tan (0.5 * radians fov_deg)))]
  have hmag : 1 ≤ rayMag dest_h dest_w fov_deg yaw_deg pitch_deg roll_deg px py := by
    rw [rayMag, show (1 : ℝ) = Real.sqrt 1 from (Real.sqrt_one).symm]
    exact Real.sqrt_le_sqrt hsum
  have hpos : 0 < rayMag dest_h dest_w fov_deg yaw_deg pitch_deg roll_deg px py :=
    lt_of_lt_of_le one_pos hmag
  have habs : |v.y| ≤ rayMag dest_h dest_w fov_deg yaw_deg pitch_deg roll_deg px py := by
    rw [rayMag, ← Real.sqrt_sq_eq_abs]
    apply Real.sqrt_le_sqrt
    rw [← hv]
    simp only [sumSq]
    nlinarith [sq_nonneg v.x, sq_nonneg v.z]
  refine ⟨hmag, ne_of_gt hpos, ?_, ?_⟩
  · rw [phiRatio, ← hv, neg_le, ← neg_div]
    exact (div_le_one hpos).mpr (le_trans (neg_le_abs _) habs)
  · rw [phiRatio, ← hv]
    exact (div_le_one hpos).mpr (le_trans (le_abs_self _) habs)

/-! ### CAMM binary telemetry decoding (`camm_parser.py`, lines 7-121)

`parse_camm_data` walks a byte stream of `reserved(2) type(2) payload`
records, resynchronizing byte-by-byte on an unknown tag, filtering
invalid fixes, and finally spreading timestamps uniformly.  Bytes are
naturals (every actual byte is < 256; the theorems quantify over the
superset); the IEEE-754 payload fields are decoded exactly into `ℚ`
(NaN/Inf doubles make the fix fail Python's range comparisons, embedded
as a failing decode).  The loop is embedded with an explicit fuel bounded
by the buffer length, which strictly exceeds the offset progress of every
iteration; `parseCammLoop` supplies a sufficient fuel, so the embedding
is total — the decoder terminates on every input by construction. -/

/-- One decoded CAMM GPS sample. -/
structure CammSample where
  lat : ℚ
  lon : ℚ
  alt : ℚ
  timestamp : ℚ
  deriving Repr, DecidableEq

/-- Little-endian unsigned integer from `cnt` bytes at `off`
(out-of-range bytes read as 0; all uses are bounds-guarded). -/
def leNat (raw : List ℕ) : ℕ → ℕ → ℕ
  | _, 0 => 0
  | off, cnt + 1 => raw.getD off 0 + 256 * leNat raw (off + 1) cnt

/-- `struct.unpack_from(LE_u16, raw, i)`. -/
def readU16 (raw : List ℕ) (i : ℕ) : ℕ := leNat raw i 2

/-- Exact value of an IEEE-754 binary64 bit pattern; `none` for NaN/Inf
(whose Python range comparisons are false, discarding the fix). -/
def decodeF64 (bits : ℕ) : Option ℚ :=
  let s : ℕ := bits / 2 ^ 63 % 2
  let e : ℕ := bits / 2 ^ 52 % 2 ^ 11
  let m : ℕ := bits % 2 ^ 52
  if e = 2047 then none
  else
    let mag : ℚ :=
      if e = 0 then (m : ℚ) / 2 ^ 1074
      else ((2 ^ 52 + m : ℕ) : ℚ) * 2 ^ e / 2 ^ 1075
  some (if s = 1 then -mag else mag)

/-- Exact value of an IEEE-754 binary32 bit pattern (the altitude field,
which the source never validates; its IEEE special values are collapsed
to 0, which no claim in scope observes). -/
def decodeF32 (bits : ℕ) : ℚ :=
  let s : ℕ := bits / 2 ^ 31 % 2
  let e : ℕ := bits / 2 ^ 23 % 2 ^ 8
  let m : ℕ := bits % 2 ^ 23
  if e = 255 then 0
  else
    let mag : ℚ :=
      if e = 0 then (m : ℚ) / 2 ^ 149
      else ((2 ^ 23 + m : ℕ) : ℚ) * 2 ^ e / 2 ^ 150
  if s = 1 then -mag else mag

/-- `struct.unpack_from(LE_ddf, raw, o)`: lat and lon as doubles, alt
as a float. -/
def decodeGpsPayload (raw : List ℕ) (o : ℕ) : Option (ℚ × ℚ × ℚ) :=
  match decodeF64 (leNat raw o 8), decodeF64 (leNat raw (o + 8) 8) with
  | some lat, some lon => some (lat, lon, decodeF32 (leNat raw (o + 16) 4))
  | _, _ => none

/-- The validity filter of the GPS branch (`camm_parser.py`, line 69):
range check plus the invalid/no-fix filter `abs(lat) > 0.0001 or
abs(lon) > 0.0001`. -/
def validFix (lat lon : ℚ) : Bool :=
  decide (-90 ≤ lat) && decide (lat ≤ 90) &&
    decide (-180 ≤ lon) && decide (lon ≤ 180) &&
    (decide (1 / 10000 < |lat|) || decide (1 / 10000 < |lon|))

/-- The payload-size table of the known tag enumeration
(`camm_parser.py`, lines 44-59): GPS(6)=20, Gyro(2)=12, Accel(3)=12,
Exposure(1)=8, Reserved(0)=0; `none` is the `payload_size = -1` unknown
case. -/
def camm_payload_size (t : ℕ) : Option ℕ :=
  if t = 6 then some 20
  else if t = 2 then some 12
  else if t = 3 then some 12
  else if t = 1 then some 8
  else if t = 0 then some 0
  else none

/-- The resynchronization plausibility test (`camm_parser.py`,
lines 87-93): reserved field 0 and a tag in the enumeration scanned
for (1, 2, 3, 6). -/
def cammResyncHeader (raw : List ℕ) (p : ℕ) : Bool :=
  decide (readU16 raw p = 0) &&
    (decide (readU16 raw (p + 2) = 1) || decide (readU16 raw (p + 2) = 2) ||
      decide (readU16 raw (p + 2) = 3) || decide (readU16 raw (p + 2) = 6))

/-- The resynchronization scan (`camm_parser.py`, lines 84-99):
byte-by-byte from `start` while `scan_ptr < length - 4`, returning the
first plausible header position. -/
def findResync (raw : List ℕ) (start : ℕ) : Option ℕ :=
  (List.range' start (raw.length - 4 - start)).find? (cammResyncHeader raw)

/-- The record-decoding loop of `parse_camm_data` (lines 25-102), with
explicit fuel: header-bounds check, payload-size dispatch, GPS decoding
and validation, and resynchronization on an unknown tag. -/
def parseCammGo (raw : List ℕ) : ℕ → ℕ → List CammSample → List CammSample
  | 0, _, acc => acc
  | fuel + 1, offset, acc =>
    if raw.length < offset + 4 then acc
    else
      match camm_payload_size (readU16 raw (offset + 2)) with
      | some sz =>
        if raw.length < offset + 4 + sz then acc
        else
          parseCammGo raw fuel (offset + 4 + sz)
            (if readU16 raw (offset + 2) = 6 then
              match decodeGpsPayload raw (offset + 4) with
              | some fx =>
                if validFix fx.1 fx.2.1 then acc ++ [⟨fx.1, fx.2.1, fx.2.2, 0⟩]
                else acc
              | none => acc
            else acc)
      | none =>
        match findResync raw (offset + 1) with
        | some p => parseCammGo raw fuel p acc
        | none => acc

/-- The decoding loop started at `offset` with sufficient fuel. -/
def parseCammLoop (raw : List ℕ) (offset : ℕ)
    (acc : List CammSample) : List CammSample :=
  parseCammGo raw (raw.length - offset) offset acc

/-- Timestamp assignment (`camm_parser.py`, lines 104-118): spread
uniformly over the duration when it is known, else a fixed 5 Hz rate. -/
def assignTs (duration : ℚ) (num_samples : ℕ) :
    ℕ → List CammSample → List CammSample
  | _, [] => []
  | i, s :: rest =>
    { s with timestamp :=
        if 0 < duration then ((i : ℚ) / (num_samples : ℚ)) * duration
        else (i : ℚ) * (1 / 5) } :: assignTs duration num_samples (i + 1) rest

/-- `parse_camm_data(raw_data, duration)`. -/
def parse_camm_data (raw : List ℕ) (duration : ℚ) : List CammSample :=
  let samples := parseCammLoop raw 0 []
  assignTs duration samples.length 0 samples

/-- A linear scan over `range' start k` succeeds with `p` exactly when
`p` is the first position at or after `start`, below `start + k`,
satisfying the predicate. -/
theorem find_range_eq_some_iff (pred : ℕ → Bool) :
    ∀ k start p, (List.range' start k).find? pred = some p ↔
      (pred p = true ∧ start ≤ p ∧ p < start + k ∧
        ∀ q, start ≤ q → q < p → pred q = false) := by
  intro k
  induction k with
  | zero =>
    intro start p
    simp only [List.range', List.find?_nil]
    constructor
    · intro h
      exact absurd h (by simp)
    · rintro ⟨hp, h1, h2, hprev⟩
      omega
  | succ n ih =>
    intro start p
    rw [List.range'_succ]
    by_cases hs : pred start
    · rw [List.find?_cons_of_pos _ hs]
      constructor
      · rintro h
        have hps : p = start := by simpa using h.symm
        subst hps
        exact ⟨hs, le_refl _, by omega, fun q h1 h2 => absurd h2 (by omega)⟩
      · rintro ⟨hp, h1, h2, hprev⟩
        rcases eq_or_lt_of_le h1 with rfl | hlt
        · rfl
        · exact absurd hs (by simp [hprev start (le_refl _) hlt])
    · rw [List.find?_cons_of_neg _ hs]
      rw [ih (start + 1) p]
      constructor
      · rintro ⟨hp, h1, h2, hprev⟩
        refine ⟨hp, by omega, by omega, ?_⟩
        intro q hq1 hq2
        rcases eq_or_lt_of_le hq1 with rfl | hlt
        · exact Bool.not_eq_true _ ▸ (by simpa using hs)
        · exact hprev q (by omega) hq2
      · rintro ⟨hp, h1, h2, hprev⟩
        have h1' : start + 1 ≤ p := by
          rcases eq_or_lt_of_le h1 with rfl | hlt
          · exact absurd hp (by simp [hs])
          · omega
        exact ⟨hp, h1', by omega, fun q hq1 hq2 => hprev q (by omega) hq2⟩

/-- The resynchronization scan finds exactly the first plausible header
position in the interval from `start` to `length − 4`. -/
theorem findResync_eq_some_iff (raw : List ℕ) (start p : ℕ) :
    findResync raw start = some p ↔
      cammResyncHeader raw p = true ∧ start ≤ p ∧ p < raw.length - 4 ∧
        ∀ q, start ≤ q → q < p → cammResyncHeader raw q = false := by
  rw [findResync, find_range_eq_some_iff]
  constructor
  · rintro ⟨hp, h1, h2, hprev⟩
    exact ⟨hp, h1, by omega, hprev⟩
  · rintro ⟨hp, h1, h2, hprev⟩
    exact ⟨hp, h1, by omega, hprev⟩

/-- The resynchronization scan fails exactly when no plausible header
exists in `[start, length − 4)`. -/
theorem findResync_eq_none_iff (raw : List ℕ) (start : ℕ) :
    findResync raw start = none ↔
      ∀ q, start ≤ q → q < raw.length - 4 → cammResyncHeader raw q = false := by
  rw [findResync, List.find?_eq_none]
  constructor
  · intro h q hq1 hq2
    have := h q (List.mem_range'_1.mpr ⟨hq1, by omega⟩)
    simpa using this
  · intro h q hq
    obtain ⟨hq1, hq2⟩ := List.mem_range'_1.mp hq
    simp [h q hq1 (by omega)]

/-- A successful resynchronization lands at or after the scan start. -/
theorem findResync_ge (raw : List ℕ) (start p : ℕ)
    (h : findResync raw start = some p) : start ≤ p :=
  ((findResync_eq_some_iff raw start p).mp h).2.1

/-- Any fuel at least the remaining buffer length yields the same result:
the loop is insensitive to the particular sufficient fuel. -/
theorem parseCammGo_fuel (raw : List ℕ) :
    ∀ fuel₁ fuel₂ offset acc, raw.length ≤ offset + fuel₁ →
      raw.length ≤ offset + fuel₂ →
      parseCammGo raw fuel₁ offset acc = parseCammGo raw fuel₂ offset acc := by
  intro fuel₁
  induction fuel₁ with
  | zero =>
    intro fuel₂ offset acc h1 h2
    cases fuel₂ with
    | zero => rfl
    | succ k =>
      simp only [parseCammGo]
      rw [if_pos (by omega)]
  | succ n ih =>
    intro fuel₂ offset acc h1 h2
    cases fuel₂ with
    | zero =>
      simp only [parseCammGo]
      rw [if_pos (by omega)]
    | succ k =>
      simp only [parseCammGo]
      by_cases hg : raw.length < offset + 4
      · rw [if_pos hg, if_pos hg]
      · rw [if_neg hg, if_neg hg]
        cases hsz : camm_payload_size (readU16 raw (offset + 2)) with
        | some sz =>
          simp only [hsz]
          by_cases hg2 : raw.length < offset + 4 + sz
          · rw [if_pos hg2, if_pos hg2]
          · rw [if_neg hg2, if_neg hg2]
            exact ih k (offset + 4 + sz) _ (by omega) (by omega)
        | none =>
          simp only [hsz]
          cases hfr : findResync raw (offset + 1) with
          | some p =>
            simp only [hfr]
            have hp := findResync_ge raw (offset + 1) p hfr
            exact ih k p acc (by omega) (by omega)
          | none => simp only [hfr]

/-- C5: the decoder is total by construction (`parseCammLoop` runs on an
explicit sufficient fuel), and on a record whose tag is outside the known
enumeration it scans forward byte-by-byte: if a plausible header (reserved
field 0, tag among the scanned enumeration) exists before the buffer end,
decoding resumes at the first such position with the samples decoded so
far intact; if none exists, the loop stops and returns exactly the samples
decoded so far. -/
theorem c5_camm_resync (raw : List ℕ) (offset : ℕ)
    (acc : List CammSample) (hin : offset + 4 ≤ raw.length)
    (hunk : camm_payload_size (readU16 raw (offset + 2)) = none) :
    (∀ p, findResync raw (offset + 1) = some p →
      parseCammLoop raw offset acc = parseCammLoop raw p acc ∧
      offset + 1 ≤ p ∧ p < raw.length - 4 ∧ cammResyncHeader raw p = true ∧
      ∀ q, offset + 1 ≤ q → q < p → cammResyncHeader raw q = false) ∧
    (findResync raw (offset + 1) = none →
      parseCammLoop raw offset acc = acc ∧
      ∀ q, offset + 1 ≤ q → q < raw.length - 4 →
        cammResyncHeader raw q = false) := by
  constructor
  · intro p hp
    obtain ⟨hpl, hge, hlt, hprev⟩ := (findResync_eq_some_iff raw _ p).mp hp
    refine ⟨?_, hge, hlt, hpl, hprev⟩
    rw [parseCammLoop, parseCammLoop]
    obtain ⟨m, hm⟩ : ∃ m, raw.length - offset = m + 1 :=
      ⟨raw.length - offset - 1, by omega⟩
    rw [hm]
    simp only [parseCammGo]
    rw [if_neg (by omega)]
    simp only [hunk, hp]
    exact parseCammGo_fuel raw m (raw.length - p) p acc (by omega) (by omega)
  · intro hnone
    refine ⟨?_, (findResync_eq_none_iff raw _).mp hnone⟩
    rw [parseCammLoop]
    obtain ⟨m, hm⟩ : ∃ m, raw.length - offset = m + 1 :=
      ⟨raw.length - offset - 1, by omega⟩
    rw [hm]
    simp only [parseCammGo]
    rw [if_neg (by omega)]
    simp only [hunk, hnone]

/-- A CAMM stream starting with an unknown-tag header (0xFFFF), followed
by a well-formed GPS record (reserved 0, tag 6, lat = lon = 1.0,
alt = 0.0f). -/
def cammDesyncExample : List ℕ :=
  [255, 255, 255, 255,
    0, 0, 6, 0,
    0, 0, 0, 0, 0, 0, 240, 63,
    0, 0, 0, 0, 0, 0, 240, 63,
    0, 0, 0, 0]

/-- Witness for `c5_camm_resync`: the desync example resumes at the GPS
record header at offset 4, the first plausible position. -/
theorem c5_camm_resync_witness :
    parseCammLoop cammDesyncExample 0 [] =
        parseCammLoop cammDesyncExample 4 [] ∧
      0 + 1 ≤ 4 ∧ 4 < cammDesyncExample.length - 4 ∧
      cammResyncHeader cammDesyncExample 4 = true ∧
      ∀ q, 0 + 1 ≤ q → q < 4 → cammResyncHeader cammDesyncExample q = false :=
  (c5_camm_resync cammDesyncExample 0 [] (by decide) (by decide)).1 4
    (by decide)

/-- Samples accumulated by the loop all pass the invalid-fix filter:
latitude or longitude is bounded away from zero. -/
theorem parseCammGo_latlon (raw : List ℕ) :
    ∀ fuel offset acc,
      (∀ s ∈ acc, 1 / 10000 < |s.lat| ∨ 1 / 10000 < |s.lon|) →
      ∀ s ∈ parseCammGo raw fuel offset acc,
        1 / 10000 < |s.lat| ∨ 1 / 10000 < |s.lon| := by
  intro fuel
  induction fuel with
  | zero =>
    intro offset acc hacc s hs
    exact hacc s hs
  | succ n ih =>
    intro offset acc hacc s hs
    simp only [parseCammGo] at hs
    by_cases hg : raw.length < offset + 4
    · rw [if_pos hg] at hs
      exact hacc s hs
    · rw [if_neg hg] at hs
      cases hsz : camm_payload_size (readU16 raw (offset + 2)) with
      | some sz =>
        simp only [hsz] at hs
        by_cases hg2 : raw.length < offset + 4 + sz
        · rw [if_pos hg2] at hs
          exact hacc s hs
        · rw [if_neg hg2] at hs
          refine ih (offset + 4 + sz) _ ?_ s hs
          by_cases h6 : readU16 raw (offset + 2) = 6
          · rw [if_pos h6]
            cases hdec : decodeGpsPayload raw (offset + 4) with
            | some fx =>
              show ∀ s' ∈ (if validFix fx.1 fx.2.1 = true then
                  acc ++ [⟨fx.1, fx.2.1, fx.2.2, 0⟩] else acc),
                1 / 10000 < |s'.lat| ∨ 1 / 10000 < |s'.lon|
              by_cases hv : validFix fx.1 fx.2.1 = true
              · rw [if_pos hv]
                intro s' hs'
                rcases List.mem_append.mp hs' with hmem | hnew
                · exact hacc s' hmem
                · have hs'' : s' = ⟨fx.1, fx.2.1, fx.2.2, 0⟩ := by
                    simpa using hnew
                  subst hs''
                  simp only [validFix, Bool.and_eq_true, Bool.or_eq_true,
                    decide_eq_true_eq] at hv
                  exact hv.2
              · rw [if_neg hv]
                exact hacc
            | none =>
              show ∀ s' ∈ acc, 1 / 10000 < |s'.lat| ∨ 1 / 10000 < |s'.lon|
              exact hacc
          · rw [if_neg h6]
            exact hacc
      | none =>
        simp only [hsz] at hs
        cases hfr : findResync raw (offset + 1) with
        | some p =>
          simp only [hfr] at hs
          exact ih p acc hacc s hs
        | none =>
          simp only [hfr] at hs
          exact hacc s hs

/-- Timestamp assignment preserves each sample's latitude and
longitude. -/
theorem assignTs_latlon (duration : ℚ) (num_samples : ℕ) :
    ∀ l i, ∀ s ∈ assignTs duration num_samples i l,
      ∃ s₀ ∈ l, s.lat = s₀.lat ∧ s.lon = s₀.lon := by
  intro l
  induction l with
  | nil =>
    intro i s hs
    simp [assignTs] at hs
  | cons hd tl ih =>
    intro i s hs
    simp only [assignTs, List.mem_cons] at hs
    rcases hs with rfl | hs
    · exact ⟨hd, List.mem_cons_self _ _, rfl, rfl⟩
    · obtain ⟨s₀, hmem, h1, h2⟩ := ih (i + 1) s hs
      exact ⟨s₀, List.mem_cons_of_mem _ hmem, h1, h2⟩

/-- C7: no sample returned by the CAMM decoder has latitude and longitude
both within `0.0001` of zero — such fixes are discarded as
invalid/no-fix. -/
theorem c7_no_zero_fix (raw : List ℕ) (duration : ℚ) :
    ∀ s ∈ parse_camm_data raw duration,
      1 / 10000 < |s.lat| ∨ 1 / 10000 < |s.lon| := by
  intro s hs
  simp only [parse_camm_data] at hs
  obtain ⟨s₀, hmem, hlat, hlon⟩ := assignTs_latlon duration _ _ 0 s hs
  rw [hlat, hlon]
  refine parseCammGo_latlon raw _ 0 [] ?_ s₀ hmem
  intro s' hs'
  simp at hs'

/-- A CAMM stream holding exactly one well-formed GPS record with
lat = lon = 1.0. -/
def cammGpsExample : List ℕ :=
  [0, 0, 6, 0,
    0, 0, 0, 0, 0, 0, 240, 63,
    0, 0, 0, 0, 0, 0, 240, 63,
    0, 0, 0, 0]

set_option exponentiation.threshold 1100 in
/-- The bit pattern of the double 1.0 decodes to the rational 1. -/
theorem decodeF64_one : decodeF64 4607182418800017408 = some 1 := by
  norm_num [decodeF64]

/-- The all-zero float bit pattern decodes to 0. -/
theorem decodeF32_zero : decodeF32 0 = 0 := by
  norm_num [decodeF32]

/-- The GPS payload of the example stream decodes to lat 1, lon 1, alt 0. -/
theorem cammGpsPayload : decodeGpsPayload cammGpsExample 4 = some (1, 1, 0) := by
  have hb : leNat cammGpsExample 4 8 = 4607182418800017408 := by decide
  have hb2 : leNat cammGpsExample (4 + 8) 8 = 4607182418800017408 := by decide
  have hb3 : leNat cammGpsExample (4 + 16) 4 = 0 := by decide
  simp only [decodeGpsPayload, hb, hb2, hb3, decodeF64_one, decodeF32_zero]

/-- The example stream decodes to the single sample
lat 1, lon 1, alt 0, timestamp 0. -/
theorem cammGpsExample_parse :
    parse_camm_data cammGpsExample 0 = [⟨1, 1, 0, 0⟩] := by
  have ht : readU16 cammGpsExample (0 + 2) = 6 := by decide
  have hlen : cammGpsExample.length = 24 := by decide
  have step1 : parseCammGo cammGpsExample (23 + 1) 0 [] =
      parseCammGo cammGpsExample 23 24 [⟨1, 1, 0, 0⟩] := by
    rw [parseCammGo]
    norm_num [ht, hlen, camm_payload_size, cammGpsPayload, validFix]
  have step2 : parseCammGo cammGpsExample (22 + 1) 24 [⟨1, 1, 0, 0⟩] =
      [⟨1, 1, 0, 0⟩] := by
    rw [parseCammGo]
    norm_num [hlen]
  have hloop : parseCammLoop cammGpsExample 0 [] = [⟨1, 1, 0, 0⟩] := by
    rw [parseCammLoop, hlen]
    norm_num
    rw [show (24 : ℕ) = 23 + 1 from rfl, step1,
      show (23 : ℕ) = 22 + 1 from rfl, step2]
  simp only [parse_camm_data, hloop]
  norm_num [assignTs]

/-- Witness for `c7_no_zero_fix`: the decoded sample of the example
stream has latitude 1, away from zero. -/
theorem c7_no_zero_fix_witness :
    1 / 10000 < |(1 : ℚ)| ∨ 1 / 10000 < |(1 : ℚ)| :=
  c7_no_zero_fix cammGpsExample 0 ⟨1, 1, 0, 0⟩
    (by rw [cammGpsExample_parse]; exact List.mem_singleton.mpr rfl)

end Extractor360
